import Mathlib

/-!
Verification development for the DecisionToolBox `blackBox` engine.

The C++ sources are embedded shallowly:

* machine `float` arithmetic is idealised as exact rationals (`ℚ`); the
  value `numeric_limits<float>::infinity()` used by the schedulers is the
  top element of `WithTop ℚ`;
* `std::vector` becomes `List`; iterators become indices, and dereferencing
  an `end()` iterator (undefined behaviour in the source) is modelled by an
  `Option` failure;
* reads of uninitialised stack variables (undefined behaviour in the
  source) are modelled by an explicit junk value: `-2` for the
  uninitialised `int` backtracking arrays `preX`/`preY`/`preRepair` and the
  uninitialised `optFinalCondition`, and `0` for an uninitialised `float`
  (`impCoeff` in `calEnvImpact`, `p1` in `gaussianElimination`);
* rational division by zero is Lean's total division (`x / 0 = 0`);
* the possibly non-terminating backtracking `while` loops are modelled
  with an explicit fuel parameter together with fuel-free step functions,
  so that non-termination of the source loop is expressible.
-/

/-- `struct Pair` of FindOptSchedule.h: one schedule entry. -/
structure Pair where
  repairID : ℤ
  repairYear : ℤ
deriving DecidableEq, Repr

/-- `typedef vector<Pair> RepairSchedule`. -/
abbrev RepairSchedule := List Pair

/-- `struct RepairEnv` of Input.h: one catalog row. -/
structure RepairEnv where
  repairID : ℤ
  LB : ℤ
  UB : ℤ
  improvement : ℤ
  duration : ℤ
  repairMean : ℚ
  trafficMean : ℚ
deriving DecidableEq, Repr

/-- `typedef vector<RepairEnv> RepairEnvMat`. -/
abbrev RepairEnvMat := List RepairEnv

/-- `struct ImpCoef` of Input.h: improvement coefficient for one condition rating. -/
structure ImpCoef where
  condition : ℤ
  coef : ℚ
deriving DecidableEq, Repr

/-- `typedef vector<ImpCoef> ImproveMat`. -/
abbrev ImproveMat := List ImpCoef

/-- `struct BridgeInfo` of Input.h. -/
structure BridgeInfo where
  bridgeWidth : ℚ
  bridgeLength : ℚ
  bridgeID : ℤ
  bridgeAADT : ℚ
  bridgeAADTT : ℚ
  trafficGrowthRate : ℚ
  discountRate : ℚ
  startRating : ℤ
  startYear : ℤ
deriving DecidableEq, Repr

/-- `typedef map<int,float> CostMap`; `operator[]` on a missing key
default-constructs `0.0f`, so the map is a total function defaulting to 0. -/
abbrev CostMap := ℤ → ℚ

/-- `ComponentRatingMat` (declared in the external LCO.h, used by
readRatings/polyFit): parallel vectors of inspection years and ratings. -/
structure ComponentRatingMat where
  ratings : List ℤ
  years : List ℤ
deriving DecidableEq, Repr

/- ----------------------------------------------------------------
   mergeFourSched (FindOptSchedule.cpp, lines 354-403)
   ---------------------------------------------------------------- -/

/-- The four input vectors, indexed like `itStart[4]` in the source. -/
abbrev MergeVecs := Fin 4 → List Pair

/-- The inner selection loop of `mergeFourSched` (source lines 379-387):
starting from `min = 9999, min_i = 5` it scans `i = 0..3`; a live schedule
(`!ends[i]`) has its current head dereferenced and wins when its
`repairYear <= min`.  `min_i = 5` is modelled as `none`.  Dereferencing
past the end of a vector (which the source does whenever a live index sits
at `end()`) is undefined behaviour, modelled by returning `none`. -/
def selLoop (vecs : MergeVecs) (idx : Fin 4 → ℕ) (ends : Fin 4 → Bool) :
    List (Fin 4) → ℤ × Option (Fin 4) → Option (ℤ × Option (Fin 4))
  | [], acc => some acc
  | i :: rest, (min, min_i) =>
    if ends i then selLoop vecs idx ends rest (min, min_i)
    else
      match (vecs i).get? (idx i) with
      | none => none
      | some p =>
        if p.repairYear ≤ min then selLoop vecs idx ends rest (p.repairYear, some i)
        else selLoop vecs idx ends rest (min, min_i)

/-- The main `while` loop of `mergeFourSched` (source lines 377-399), with
explicit fuel.  Each iteration: stop if all four `ends` flags are set;
otherwise run the selection loop, break on `min_i == 5`, push the selected
head, and advance the winner (setting its `ends` flag when it reaches the
end).  `none` means either undefined behaviour (end-iterator dereference)
or fuel exhaustion; `mergeFourSched` supplies enough fuel for every
defined execution. -/
def mergeLoop (vecs : MergeVecs) :
    ℕ → (Fin 4 → ℕ) → (Fin 4 → Bool) → List Pair → Option (List Pair)
  | 0, _, _, _ => none
  | fuel + 1, idx, ends, result =>
    if ends 0 ∧ ends 1 ∧ ends 2 ∧ ends 3 then some result
    else
      match selLoop vecs idx ends [0, 1, 2, 3] (9999, none) with
      | none => none
      | some (_, none) => some result
      | some (_, some w) =>
        match (vecs w).get? (idx w) with
        | none => none
        | some p =>
          let idx' := Function.update idx w (idx w + 1)
          let ends' := Function.update ends w (decide (idx w + 1 = (vecs w).length))
          mergeLoop vecs fuel idx' ends' (result ++ [p])

/-- `mergeFourSched` (source lines 354-403).  The fuel
`|vec1| + |vec2| + |vec3| + |vec4| + 1` covers every defined run: each
non-final iteration advances one index. -/
def mergeFourSched (vec1 vec2 vec3 vec4 : List Pair) : Option (List Pair) :=
  let vecs : MergeVecs := ![vec1, vec2, vec3, vec4]
  mergeLoop vecs (vec1.length + vec2.length + vec3.length + vec4.length + 1)
    (fun _ => 0) (fun _ => false) []

/- ----------------------------------------------------------------
   PolyFit.cpp: least-squares quadratic fit
   ---------------------------------------------------------------- -/

/-- Pointwise update of a 1-dimensional `float` array modelled as a function. -/
def upd1 (f : ℕ → ℚ) (i : ℕ) (v : ℚ) : ℕ → ℚ :=
  fun a => if a = i then v else f a

/-- Pointwise update of a 2-dimensional `float` array modelled as a function. -/
def updB (b : ℕ → ℕ → ℚ) (i j : ℕ) (v : ℚ) : ℕ → ℕ → ℚ :=
  fun a c => if a = i ∧ c = j then v else b a c

/-- `f` of PolyFit.cpp (lines 66-72): sum of `x[i]^k` over the `n` samples. -/
def f (k n : ℕ) (x : ℕ → ℚ) : ℚ :=
  (List.range n).foldl (fun sum i => sum + x i ^ k) 0

/-- `fy` of PolyFit.cpp (lines 81-87): sum of `y[i] * x[i]^k`. -/
def fy (k n : ℕ) (x y : ℕ → ℚ) : ℚ :=
  (List.range n).foldl (fun sum i => sum + y i * x i ^ k) 0

/-- `F` of PolyFit.cpp (lines 132-138): the back-substitution helper
`sum of b[l-1][i] * c[i]` for `i = l..m`. -/
def F (l m : ℕ) (c : ℕ → ℚ) (b : ℕ → ℕ → ℚ) : ℚ :=
  (List.range' l (m + 1 - l)).foldl (fun sum i => sum + b (l - 1) i * c i) 0

/-- Forward elimination phase of `gaussianElimination` (PolyFit.cpp lines
98-108).  `p1` is read uninitialised when the pivot is zero; that junk
float is modelled as 0. -/
def gaussElimForward (m : ℕ) (b : ℕ → ℕ → ℚ) : ℕ → ℕ → ℚ :=
  (List.range' 1 (m - 1)).foldl
    (fun b k =>
      (List.range' (k + 1) (m - k)).foldl
        (fun b i =>
          let p1 := if b k k ≠ 0 then b i k / b k k else 0
          (List.range' k (m + 2 - k)).foldl
            (fun b j => updB b i j (b i j - b k j * p1)) b)
        b)
    b

/-- `gaussianElimination` of PolyFit.cpp (lines 96-124): forward
elimination followed by back substitution into the coefficient array `a`
(whose uninitialised entries are modelled as 0). -/
def gaussianElimination (m : ℕ) (b : ℕ → ℕ → ℚ) : ℕ → ℚ :=
  let b' := gaussElimForward m b
  let a0 := upd1 (fun _ => 0) m (b' m (m + 1) / b' m m)
  ((List.range' 1 (m - 1)).reverse).foldl
    (fun a l => upd1 a l ((b' l (m + 1) - F (l + 1) m a b') / b' l l)) a0

/-- `readData` of PolyFit.cpp (lines 146-156): sample abscissae are years
relative to the first inspection year, ordinates are the ratings. -/
def readDataX (ratings : ComponentRatingMat) : ℕ → ℚ :=
  fun i => ((ratings.years.getD i 0 - ratings.years.getD 0 0 : ℤ) : ℚ)

/-- `readData` of PolyFit.cpp: the ordinate array. -/
def readDataY (ratings : ComponentRatingMat) : ℕ → ℚ :=
  fun i => ((ratings.ratings.getD i 0 : ℤ) : ℚ)

/-- `polyFit` of PolyFit.cpp (lines 30-57): build the augmented
normal-equation matrix (`b[i][j] = f(i+j-2)`, right-hand side `fy(i-1)`,
then `b[1][1] = n`), solve it, and return
`(coeff[0], coeff[1], coeff[2]) = (a[3], a[2], a[1])` — leading
coefficient first. -/
def polyFit (k : ℕ) (ratings : ComponentRatingMat) : ℚ × ℚ × ℚ :=
  let n := ratings.ratings.length
  let x := readDataX ratings
  let y := readDataY ratings
  let b :=
    (List.range' 1 k).foldl
      (fun b i =>
        updB ((List.range' 1 k).foldl
                (fun b j => updB b i j (f (i + j - 2) n x)) b)
          i (k + 1) (fy (i - 1) n x y))
      (fun _ _ => 0)
  let b := updB b 1 1 (n : ℚ)
  let a := gaussianElimination k b
  (a 3, a 2, a 1)

/- ----------------------------------------------------------------
   Input.cpp: ratingDecay (lines 36-71)
   ---------------------------------------------------------------- -/

/-- The expression `(-pow(b, 2)+4*a*c)/(4*a)` of Input.cpp lines 48 and
52: the rating value at the vertex of the fitted parabola. -/
def vertexVal (a b c : ℚ) : ℚ :=
  (-b ^ 2 + 4 * a * c) / (4 * a)

/-- The validation step of `ratingDecay` (Input.cpp lines 46-55): an
upward-opening fit is rejected when the vertex rating exceeds `limit`, a
non-upward fit when the vertex rating is below 9. -/
def ratingDecayValidate (a b c : ℚ) (limit : ℤ) : Except String Unit :=
  if 0 < a then
    if (limit : ℚ) < vertexVal a b c then
      Except.error "Need more low condition rating data."
    else Except.ok ()
  else
    if vertexVal a b c < 9 then
      Except.error "Need more high condition rating data."
    else Except.ok ()

/-- `timePoints[i]` of Input.cpp lines 57-62: the root
`(-b - sqrt(b^2 - 4*a*(c - i))) / (2*a)` of the fitted quadratic shifted
by rating `i`. -/
noncomputable def timePoints (a b c : ℚ) (i : ℤ) : ℝ :=
  (-(b : ℝ) - Real.sqrt ((b : ℝ) ^ 2 - 4 * (a : ℝ) * ((c : ℝ) - (i : ℝ)))) / (2 * (a : ℝ))

/-- `ratingsDecay[i][j]` of Input.cpp lines 64-70:
`floor(timePoints[j] - timePoints[i])`. -/
noncomputable def ratingsDecayTable (a b c : ℚ) (i j : ℤ) : ℤ :=
  ⌊timePoints a b c j - timePoints a b c i⌋

/-- `ratingDecay` of Input.cpp (lines 36-71): fit, validate, then derive
the decay table. -/
noncomputable def ratingDecay (ratings : ComponentRatingMat) (limit : ℤ) :
    Except String (ℤ → ℤ → ℤ) :=
  let (a, b, c) := polyFit 3 ratings
  match ratingDecayValidate a b c limit with
  | Except.error e => Except.error e
  | Except.ok () => Except.ok (fun i j => ratingsDecayTable a b c i j)

/- ----------------------------------------------------------------
   EnvImpact.cpp: calEnvImpact (lines 25-203)
   ---------------------------------------------------------------- -/

/-- Category set `one` of EnvImpact.cpp line 46. -/
def categoryOne : List ℤ := [1, 7, 15, 16]

/-- Category set `two` of EnvImpact.cpp line 48. -/
def categoryTwo : List ℤ := [2]

/-- Category set `three` of EnvImpact.cpp lines 50-51: the array literal
lists 15 repair ids, but the set is constructed from only the first 14
(`categoryThree+14`), so id 45 is dropped and belongs to no category. -/
def categoryThree : List ℤ := [3, 22, 23, 24, 25, 26, 27, 28, 29, 30, 31, 32, 33, 34]

/-- Category set `four` of EnvImpact.cpp line 52. -/
def categoryFour : List ℤ := [4, 10]

/-- Category set `five` of EnvImpact.cpp line 54. -/
def categoryFive : List ℤ := [5]

/-- Category set `six` of EnvImpact.cpp line 56. -/
def categorySix : List ℤ := [6, 37, 38, 39, 40]

/-- Category set `seven` of EnvImpact.cpp line 58: the "no information
available" bucket. -/
def categorySeven : List ℤ := [8, 9, 41, 42, 43, 44, 46, 47, 48, 49, 50]

/-- Category set `eight` of EnvImpact.cpp line 60. -/
def categoryEight : List ℤ := [11, 51]

/-- Category set `nine` of EnvImpact.cpp line 62. -/
def categoryNine : List ℤ := [12, 13, 14]

/-- Category set `ten` of EnvImpact.cpp line 64. -/
def categoryTen : List ℤ := [17, 18, 19, 20, 21, 35, 36]

/-- Category set `eleven` of EnvImpact.cpp line 66. -/
def categoryEleven : List ℤ := [0]

/-- The improvement-coefficient lookup loop of EnvImpact.cpp lines 36-39:
the last row whose `condition` equals the requested rating wins; if no row
matches, `impCoeff` stays uninitialised (`none`). -/
def lookupImpCoeff (impMat : ImproveMat) (rating : ℤ) : Option ℚ :=
  impMat.foldl (fun acc row => if row.condition = rating then some row.coef else acc) none

/-- The catalog scan shared by the category branches of EnvImpact.cpp
(`for j ... if repairID matches and LB <= rating <= UB ... break`): the
first matching row. -/
def scanRepair (repairs : RepairEnvMat) (repairID rating : ℤ) : Option RepairEnv :=
  repairs.find? (fun r =>
    decide (r.repairID = repairID ∧ rating ≤ r.UB ∧ r.LB ≤ rating))

/-- `calEnvImpact` of EnvImpact.cpp (lines 25-203).  `CO2` starts at
`0.0f` (line 42) and is returned unchanged when the category's catalog
scan finds no matching row, or when the repair id belongs to no category.
A formula that multiplies by `impCoeff` reads an uninitialised float when
`impMat` has no row for `rating`; that undefined behaviour is the `none`
result. -/
def calEnvImpact (bridge : BridgeInfo) (year repairID rating : ℤ)
    (repairs : RepairEnvMat) (impMat : ImproveMat) : Option ℚ :=
  let deckLength := bridge.bridgeLength
  let deckWidth := bridge.bridgeWidth
  let AADT := bridge.bridgeAADT
  let growthRate := bridge.trafficGrowthRate
  let impCoeff := lookupImpCoeff impMat rating
  if repairID ∈ categoryOne then
    match scanRepair repairs repairID rating with
    | none => some 0
    | some rep => impCoeff.map (fun ic =>
        rep.repairMean * deckLength * deckWidth * ic +
          rep.trafficMean * AADT * (rep.duration : ℚ) * (1 + growthRate) ^ year)
  else if repairID ∈ categoryTwo then
    match scanRepair repairs repairID rating with
    | none => some 0
    | some rep => impCoeff.map (fun ic =>
        rep.repairMean * 10 * deckWidth * ic +
          rep.trafficMean * AADT * (rep.duration : ℚ) * (1 + growthRate) ^ year)
  else if repairID ∈ categoryThree then
    match scanRepair repairs repairID rating with
    | none => some 0
    | some rep => some
        (rep.repairMean * deckWidth * rep.trafficMean * AADT * (rep.duration : ℚ) *
          (1 + growthRate) ^ year)
  else if repairID ∈ categoryFour then
    match scanRepair repairs repairID rating with
    | none => some 0
    | some rep => impCoeff.map (fun ic => rep.repairMean * deckLength * 2 * ic)
  else if repairID ∈ categoryFive then
    match scanRepair repairs repairID rating with
    | none => some 0
    | some rep => some (rep.repairMean * deckLength * deckWidth)
  else if repairID ∈ categorySix then
    match scanRepair repairs repairID rating with
    | none => some 0
    | some rep => impCoeff.map (fun ic => rep.repairMean * deckLength * deckWidth * ic)
  else if repairID ∈ categorySeven then
    some 0
  else if repairID ∈ categoryEight then
    match scanRepair repairs repairID rating with
    | none => some 0
    | some rep => some rep.repairMean
  else if repairID ∈ categoryNine then
    match scanRepair repairs repairID rating with
    | none => some 0
    | some rep => impCoeff.map (fun ic =>
        rep.repairMean * deckLength * 2 * ic * rep.trafficMean * AADT *
          (rep.duration : ℚ) * (1 + growthRate) ^ year)
  else if repairID ∈ categoryTen then
    match scanRepair repairs repairID rating with
    | none => some 0
    | some rep => some
        (rep.repairMean * deckLength * deckWidth +
          rep.trafficMean * AADT * (rep.duration : ℚ) * (1 + growthRate) ^ year)
  else if repairID ∈ categoryEleven then
    match scanRepair repairs repairID rating with
    | none => some 0
    | some rep => impCoeff.map (fun ic =>
        rep.repairMean * deckLength * deckWidth * ic * rep.trafficMean * AADT *
          (rep.duration : ℚ) * (1 + growthRate) ^ year)
  else
    some 0

/- ----------------------------------------------------------------
   FindOptSchedule.cpp: the two DP schedulers
   ---------------------------------------------------------------- -/

/-- The integer interval `[a, a+1, ..., b]` (empty when `b < a`), used to
model the C `for` loops over year and rating ranges. -/
def intRange (a b : ℤ) : List ℤ :=
  (List.range (b + 1 - a).toNat).map (fun (n : ℕ) => a + (n : ℤ))

/-- Pointwise update of a `[101][9]` array modelled as a total function. -/
def upd2 {α : Type} (g : ℤ → ℤ → α) (x y : ℤ) (v : α) : ℤ → ℤ → α :=
  fun a b => if a = x ∧ b = y then v else g a b

/-- The scheduler state: the objective table `M` and the three
backtracking arrays (FindOptSchedule.cpp lines 20-23 / 191-194). -/
structure DPState where
  M : ℤ → ℤ → WithTop ℚ
  preX : ℤ → ℤ → ℤ
  preY : ℤ → ℤ → ℤ
  preRepair : ℤ → ℤ → ℤ

/-- Initial state: `M` is explicitly zeroed (source lines 25-27); the
`preX`/`preY`/`preRepair` arrays are NOT initialised in the source; their
junk contents are modelled by the out-of-band value `-2` (never equal to
any year `>= -1` the algorithm writes). -/
def initState : DPState :=
  { M := fun _ _ => 0
    preX := fun _ _ => -2
    preY := fun _ _ => -2
    preRepair := fun _ _ => -2 }

/-- Boundary conditions (source lines 33-46 and 204-217): for each rating
below the start rating and each year in its natural decay window, set
`M[year][i]` to 0 or infinity and reset the backtracking pointers. -/
def applyBoundary (table : ℤ → ℤ → ℤ) (startRating limit : ℤ) (st : DPState) : DPState :=
  ((intRange limit (startRating - 1)).reverse).foldl
    (fun st rating =>
      (intRange (table startRating (rating + 1)) (table startRating rating)).foldl
        (fun st year =>
          ((intRange 1 8).reverse).foldl
            (fun st i =>
              { M := upd2 st.M year i (if rating ≤ i then 0 else ⊤)
                preX := upd2 st.preX year i (-1)
                preY := upd2 st.preY year i 0
                preRepair := upd2 st.preRepair year i 0 })
            st)
        st)
    st

/-- The fixed context of one DP fill.  `strict` selects the acceptance
comparison (`<` for the cost variant, `<=` for the impact variant);
`adjust` post-processes one `calEnvImpact` valuation (identity for the
impact variant, cost-factor times discounting for the cost variant);
`iRange` is the list of prior ratings `i` scanned by the transition loop. -/
structure DPParams where
  strict : Bool
  adjust : ℤ → ℤ → ℚ → ℚ
  bridge : BridgeInfo
  repairs : RepairEnvMat
  impMat : ImproveMat
  table : ℤ → ℤ → ℤ
  iRange : ℤ → List ℤ
  limit : ℤ

/-- The `i` loop range of the impact variant (source line 70):
`for (int i = rating+1; i < 9; i++)`. -/
def iRangeEnv (rating : ℤ) : List ℤ := intRange (rating + 1) 8

/-- The `i` loop range of the cost variant (source line 241):
`for (int i = rating; i < 9; i++)`. -/
def iRangeCost (rating : ℤ) : List ℤ := intRange rating 8

/-- One step of the innermost catalog loop (source lines 81-99 and
251-271): a row matching either the hard-coded "raise to rating 7"
condition or the exact improvement `i - j`, with `j` within its bounds,
is valuated; a strictly smaller valuation replaces the running
`(repairCost, repairId)`.  The uninitialised-float UB inside
`calEnvImpact` (missing `impCoeff`) is modelled as the junk value 0 via
`getD`. -/
def kStep (P : DPParams) (i j yearDecay : ℤ) (acc : WithTop ℚ × ℤ) (rep : RepairEnv) :
    WithTop ℚ × ℤ :=
  if i = 7 ∧ rep.improvement = 7 ∧ j ≤ rep.UB ∧ rep.LB ≤ j then
    let t := P.adjust rep.repairID yearDecay
      ((calEnvImpact P.bridge yearDecay rep.repairID j P.repairs P.impMat).getD 0)
    if (t : WithTop ℚ) < acc.1 then ((t : WithTop ℚ), rep.repairID) else acc
  else if rep.improvement = i - j ∧ j ≤ rep.UB ∧ rep.LB ≤ j then
    let t := P.adjust rep.repairID yearDecay
      ((calEnvImpact P.bridge yearDecay rep.repairID j P.repairs P.impMat).getD 0)
    if (t : WithTop ℚ) < acc.1 then ((t : WithTop ℚ), rep.repairID) else acc
  else acc

/-- The acceptance test of the DP (source line 106 for the impact variant,
line 275 for the cost variant): the tentative cost must be below (or, for
the impact variant, at) the running minimum, nonzero, and the predecessor
cell's own predecessor-year pointer must differ from `yearDecay`. -/
def acceptTest (strict : Bool) (tempCost min : WithTop ℚ) (pre yearDecay : ℤ) : Bool :=
  (if strict then decide (tempCost < min) else decide (tempCost ≤ min)) &&
    decide (tempCost ≠ 0) && decide (pre ≠ yearDecay)

/-- One acceptance step (source lines 104-112 and 273-281): compute
`tempCost = M[yearDecay][j] + repairCost` and, on acceptance, update the
running minimum and eagerly write the predecessor triple of
`(year, rating)`. -/
def jStep (strict : Bool) (year rating yearDecay : ℤ) (repairCost : WithTop ℚ)
    (repairId : ℤ) (acc : WithTop ℚ × DPState) (j : ℤ) : WithTop ℚ × DPState :=
  let tempCost := acc.2.M yearDecay j + repairCost
  if acceptTest strict tempCost acc.1 (acc.2.preX yearDecay j) yearDecay then
    (tempCost,
      { acc.2 with
        preX := upd2 acc.2.preX year rating yearDecay
        preY := upd2 acc.2.preY year rating j
        preRepair := upd2 acc.2.preRepair year rating repairId })
  else acc

/-- The `j` loop (source lines 80-114 and 250-283).  Note that
`repairCost`/`repairId` are declared before the `j` loop in the source,
so the running catalog minimum is carried across `j` iterations. -/
def jLoop (P : DPParams) (year rating i yearDecay : ℤ) (acc : WithTop ℚ × DPState) :
    WithTop ℚ × DPState :=
  ((intRange P.limit (i - 1)).foldl
    (fun (s : (WithTop ℚ × ℤ) × (WithTop ℚ × DPState)) j =>
      let rc := P.repairs.foldl (kStep P i j yearDecay) s.1
      (rc, jStep P.strict year rating yearDecay rc.1 rc.2 s.2 j))
    ((⊤, 0), acc)).2

/-- The `i` loop (source lines 70-115 and 241-284) with its early `break`
when `yearDecay = year - table[i][rating]` is negative. -/
def iLoop (P : DPParams) (year rating : ℤ) :
    List ℤ → WithTop ℚ × DPState → WithTop ℚ × DPState
  | [], acc => acc
  | i :: rest, acc =>
    let yearDecay := year - P.table i rating
    if yearDecay < 0 then acc
    else iLoop P year rating rest (jLoop P year rating i yearDecay acc)

/-- One cell of the fill (source lines 57-121 and 228-290): skip cells
fixed by the boundary, otherwise run the transition loops and store the
resulting minimum in `M[year][rating]`. -/
def cellStep (P : DPParams) (year : ℤ) (st : DPState) (rating : ℤ) : DPState :=
  if rating ≤ P.bridge.startRating ∧ year ≤ P.table P.bridge.startRating rating then st
  else
    let r := iLoop P year rating (P.iRange rating) (⊤, st)
    { r.2 with M := upd2 r.2.M year rating r.1 }

/-- The full DP fill (source lines 54-122 and 225-291): boundary, then
years 0..100 ascending, ratings `limit..8` ascending. -/
def dpFill (P : DPParams) : DPState :=
  (intRange 0 100).foldl
    (fun st year => (intRange P.limit 8).foldl (cellStep P year) st)
    (applyBoundary P.table P.bridge.startRating P.limit initState)

/-- The parameter block of `findOptEnvSchedule` (source lines 17-122). -/
def envParams (bridge : BridgeInfo) (table : ℤ → ℤ → ℤ) (repairs : RepairEnvMat)
    (impMat : ImproveMat) (limit : ℤ) : DPParams :=
  { strict := false
    adjust := fun _ _ v => v
    bridge := bridge
    repairs := repairs
    impMat := impMat
    table := table
    iRange := iRangeEnv
    limit := limit }

/-- The parameter block of `findOptCostSchedule` (source lines 188-291):
each valuation is multiplied by the repair's cost factor (a `map` lookup
defaulting to 0) and divided by `(discountRate+1)^yearDecay`. -/
def costParams (bridge : BridgeInfo) (table : ℤ → ℤ → ℤ) (repairs : RepairEnvMat)
    (costs : CostMap) (impMat : ImproveMat) (limit : ℤ) : DPParams :=
  { strict := true
    adjust := fun repId yearDecay v =>
      v * costs repId / (bridge.discountRate + 1) ^ yearDecay
    bridge := bridge
    repairs := repairs
    impMat := impMat
    table := table
    iRange := iRangeCost
    limit := limit }

/-- The filled DP state of the impact variant. -/
def envFill (bridge : BridgeInfo) (table : ℤ → ℤ → ℤ) (repairs : RepairEnvMat)
    (impMat : ImproveMat) (limit : ℤ) : DPState :=
  dpFill (envParams bridge table repairs impMat limit)

/-- The filled DP state of the cost variant. -/
def costFill (bridge : BridgeInfo) (table : ℤ → ℤ → ℤ) (repairs : RepairEnvMat)
    (costs : CostMap) (impMat : ImproveMat) (limit : ℤ) : DPState :=
  dpFill (costParams bridge table repairs costs impMat limit)

/-- The final-condition scan (source lines 125-139 and 294-308): the
rating in `limit..7` minimising `M[100][rating]`.  `optFinalCondition` is
uninitialised when no `M[100][i]` beats infinity; the junk int is
modelled as `-2`. -/
def optFinalFold (st : DPState) (limit : ℤ) : WithTop ℚ × ℤ :=
  (intRange limit 7).foldl
    (fun acc i => if st.M 100 i < acc.1 then (st.M 100 i, i) else acc)
    (⊤, -2)

/-- One backtracking step, shared by the per-final-condition printing
walks (source lines 142-149, 311-318) and the schedule-reconstruction
walks (source lines 159-171, 328-340): move to
`(preX[x][y], preY[x][y])`. -/
def backNext (st : DPState) (p : ℤ × ℤ) : ℤ × ℤ :=
  (st.preX p.1 p.2, st.preY p.1 p.2)

/-- Termination of the printing walk `while (preX[x][y] >= 0)` from a
given start state: some iterate reaches a cell with `preX < 0`. -/
def printWalkHalts (st : DPState) (x y : ℤ) : Prop :=
  ∃ n : ℕ, st.preX ((backNext st)^[n] (x, y)).1 ((backNext st)^[n] (x, y)).2 < 0

/-- The continuation condition of the reconstruction walk
`while (preX[x][y] > -1 && preRepair[x][y] > 0)` (source lines 159, 328). -/
def reconContinue (st : DPState) (p : ℤ × ℤ) : Bool :=
  decide (-1 < st.preX p.1 p.2) && decide (0 < st.preRepair p.1 p.2)

/-- Termination of the reconstruction walk from a given start state. -/
def reconHalts (st : DPState) (x y : ℤ) : Prop :=
  ∃ n : ℕ, reconContinue st ((backNext st)^[n] (x, y)) = false

/-- The entry pushed by one reconstruction-walk iteration (source lines
160-166, 329-335): repair id `preRepair[x][y]`, year `preX[x][y]`
shifted to the absolute calendar. -/
def walkEntry (st : DPState) (startYear : ℤ) (p : ℤ × ℤ) : Pair :=
  ⟨st.preRepair p.1 p.2, st.preX p.1 p.2 + startYear⟩

/-- The reconstruction walk (source lines 158-171, 327-340), collecting
entries into `temp` in walk (reverse-chronological) order; `fuel` bounds
the number of iterations of the source's `while` loop. -/
def reconWalk (st : DPState) (startYear : ℤ) : ℕ → ℤ × ℤ → List Pair
  | 0, _ => []
  | fuel + 1, p =>
    if reconContinue st p then
      walkEntry st startYear p :: reconWalk st startYear fuel (backNext st p)
    else []

/-- The sequence of cells visited by a backtracking walk, for relating the
reconstruction walk to the chain it follows. -/
def backChain (st : DPState) : ℕ → ℤ × ℤ → List (ℤ × ℤ)
  | 0, _ => []
  | n + 1, p => p :: backChain st n (backNext st p)

/-- The final append loop (source lines 172-174, 341-343):
`for (n = temp.size()-1; n > -1; n--) optSchedule.push_back(temp[n])`. -/
def pushLoop (optSchedule : RepairSchedule) (temp : List Pair) : RepairSchedule :=
  ((List.range temp.length).reverse).foldl
    (fun acc n => acc ++ [temp.getD n ⟨0, 0⟩]) optSchedule

/-- `findOptEnvSchedule` (source lines 17-178): fill the DP, pick the best
final condition, walk the predecessors, and append the reversed walk to
the caller's schedule.  Returns `(minTotalCost, optSchedule)`. -/
def findOptEnvSchedule (bridge : BridgeInfo) (table : ℤ → ℤ → ℤ)
    (repairs : RepairEnvMat) (impMat : ImproveMat) (limit : ℤ)
    (optSchedule : RepairSchedule) (fuel : ℕ) : WithTop ℚ × RepairSchedule :=
  let st := envFill bridge table repairs impMat limit
  let fin := optFinalFold st limit
  let temp := reconWalk st bridge.startYear fuel (100, fin.2)
  (fin.1, pushLoop optSchedule temp)

/-- `findOptCostSchedule` (source lines 188-347). -/
def findOptCostSchedule (bridge : BridgeInfo) (table : ℤ → ℤ → ℤ)
    (repairs : RepairEnvMat) (costs : CostMap) (impMat : ImproveMat) (limit : ℤ)
    (optSchedule : RepairSchedule) (fuel : ℕ) : WithTop ℚ × RepairSchedule :=
  let st := costFill bridge table repairs costs impMat limit
  let fin := optFinalFold st limit
  let temp := reconWalk st bridge.startYear fuel (100, fin.2)
  (fin.1, pushLoop optSchedule temp)

/- ----------------------------------------------------------------
   Helper lemmas
   ---------------------------------------------------------------- -/

/-- Membership in an integer interval list. -/
theorem mem_intRange {a b i : ℤ} : i ∈ intRange a b ↔ a ≤ i ∧ i ≤ b := by
  constructor
  · intro h
    obtain ⟨n, hn, hni⟩ := List.mem_map.mp h
    have hn' := List.mem_range.mp hn
    omega
  · rintro ⟨h1, h2⟩
    exact List.mem_map.mpr ⟨(i - a).toNat, List.mem_range.mpr (by omega), by omega⟩

/-- A `foldl` preserves any predicate its steps preserve. -/
theorem foldl_preserve {α β : Type} (Q : β → Prop) (g : β → α → β) :
    ∀ (l : List α) (b : β), Q b → (∀ b' a, a ∈ l → Q b' → Q (g b' a)) →
      Q (l.foldl g b) := by
  intro l
  induction l with
  | nil => intro b hb _; exact hb
  | cons a t ih =>
    intro b hb hstep
    exact ih (g b a) (hstep b a (List.mem_cons_self a t) hb)
      (fun b' x hx => hstep b' x (List.mem_cons_of_mem a hx))

/-- The appending loop `for (n = temp.size()-1; n > -1; n--)
optSchedule.push_back(temp[n])` appends the reverse of `temp`. -/
theorem pushLoop_eq (sched : RepairSchedule) (temp : List Pair) :
    pushLoop sched temp = sched ++ temp.reverse := by
  have aux : ∀ (k : ℕ), k ≤ temp.length → ∀ acc : RepairSchedule,
      ((List.range k).reverse).foldl (fun acc n => acc ++ [temp.getD n ⟨0, 0⟩]) acc =
        acc ++ (temp.take k).reverse := by
    intro k
    induction k with
    | zero => intro _ acc; simp
    | succ k ih =>
      intro hk acc
      have hk' : k < temp.length := hk
      have : (List.range (k + 1)).reverse = k :: (List.range k).reverse := by
        rw [List.range_succ, List.reverse_append]
        rfl
      rw [this, List.foldl_cons, ih (le_of_lt hk')]
      have htake : temp.take (k + 1) = temp.take k ++ [temp.getD k ⟨0, 0⟩] := by
        rw [List.take_succ]
        have : temp[k]? = some (temp.getD k ⟨0, 0⟩) := by
          rw [List.getD_eq_getElem?_getD, List.getElem?_eq_getElem hk']
          rfl
        rw [this]
        rfl
      rw [htake, List.reverse_append]
      simp
  have := aux temp.length le_rfl sched
  rw [List.take_length] at this
  exact this

/- ----------------------------------------------------------------
   Claim C6
   ---------------------------------------------------------------- -/

/-- Claim C6, counterexample: the claim says both variants scan only
prior ratings `i` strictly greater than `rating`; but at `rating = 5`
the cost variant's loop range is `[5, 6, 7, 8]`, which contains
`i = rating = 5`, while the impact variant's range is `[6, 7, 8]`. -/
theorem claim_C6_counterexample :
    iRangeCost 5 = [5, 6, 7, 8] ∧ (5 : ℤ) ∈ iRangeCost 5 ∧ (5 : ℤ) ∉ iRangeEnv 5 := by
  decide

/-- Claim C6, amended: the impact variant's transition scans exactly the
prior ratings `rating+1 .. 8` (never `i = rating`), while the cost
variant's scans exactly `rating .. 8`, which includes `i = rating`
whenever `rating ≤ 8`. -/
theorem claim_C6 : ∀ rating i : ℤ,
    (i ∈ iRangeEnv rating ↔ rating + 1 ≤ i ∧ i ≤ 8) ∧
    (i ∈ iRangeCost rating ↔ rating ≤ i ∧ i ≤ 8) ∧
    rating ∉ iRangeEnv rating ∧
    (rating ≤ 8 → rating ∈ iRangeCost rating) := by
  intro rating i
  refine ⟨mem_intRange, mem_intRange, ?_, ?_⟩
  · intro h
    have := mem_intRange.mp h
    omega
  · intro h
    exact mem_intRange.mpr ⟨le_rfl, h⟩

/-- Witness for C6 at `rating = 5`. -/
theorem claim_C6_witness : (5 : ℤ) ∈ iRangeCost 5 :=
  (claim_C6 5 5).2.2.2 (by decide)

/- ----------------------------------------------------------------
   Claim C5
   ---------------------------------------------------------------- -/

/-- Claim C5: characterisation of the DP acceptance step.  In both
variants the tentative value `tempCost = M[yearDecay][j] + repairCost`
replaces the running minimum (and the predecessor triple of
`(year, rating)` is written) exactly when it passes the acceptance test:
nonzero, `preX[yearDecay][j] ≠ yearDecay`, and `tempCost ≤ min` for the
impact variant (`strict = false`) but `tempCost < min` for the cost
variant (`strict = true`).  In particular a tie `tempCost = min` is
accepted by the impact variant and rejected by the cost variant. -/
theorem claim_C5 : ∀ (year rating yearDecay : ℤ) (rc : WithTop ℚ) (rid : ℤ)
    (min : WithTop ℚ) (st : DPState) (j : ℤ),
    (acceptTest false (st.M yearDecay j + rc) min (st.preX yearDecay j) yearDecay = true ↔
      st.M yearDecay j + rc ≤ min ∧ st.M yearDecay j + rc ≠ 0 ∧
        st.preX yearDecay j ≠ yearDecay) ∧
    (acceptTest true (st.M yearDecay j + rc) min (st.preX yearDecay j) yearDecay = true ↔
      st.M yearDecay j + rc < min ∧ st.M yearDecay j + rc ≠ 0 ∧
        st.preX yearDecay j ≠ yearDecay) ∧
    (jStep false year rating yearDecay rc rid (min, st) j =
      if acceptTest false (st.M yearDecay j + rc) min (st.preX yearDecay j) yearDecay then
        (st.M yearDecay j + rc,
          { st with
            preX := upd2 st.preX year rating yearDecay
            preY := upd2 st.preY year rating j
            preRepair := upd2 st.preRepair year rating rid })
      else (min, st)) ∧
    (jStep true year rating yearDecay rc rid (min, st) j =
      if acceptTest true (st.M yearDecay j + rc) min (st.preX yearDecay j) yearDecay then
        (st.M yearDecay j + rc,
          { st with
            preX := upd2 st.preX year rating yearDecay
            preY := upd2 st.preY year rating j
            preRepair := upd2 st.preRepair year rating rid })
      else (min, st)) ∧
    (st.M yearDecay j + rc = min →
      jStep true year rating yearDecay rc rid (min, st) j = (min, st)) ∧
    (st.M yearDecay j + rc = min → st.M yearDecay j + rc ≠ 0 →
      st.preX yearDecay j ≠ yearDecay →
      (jStep false year rating yearDecay rc rid (min, st) j).2.preX year rating = yearDecay) := by
  intro year rating yearDecay rc rid min st j
  have h1 : acceptTest false (st.M yearDecay j + rc) min (st.preX yearDecay j) yearDecay = true ↔
      st.M yearDecay j + rc ≤ min ∧ st.M yearDecay j + rc ≠ 0 ∧
        st.preX yearDecay j ≠ yearDecay := by
    simp [acceptTest, and_assoc]
  have h2 : acceptTest true (st.M yearDecay j + rc) min (st.preX yearDecay j) yearDecay = true ↔
      st.M yearDecay j + rc < min ∧ st.M yearDecay j + rc ≠ 0 ∧
        st.preX yearDecay j ≠ yearDecay := by
    simp [acceptTest, and_assoc]
  refine ⟨h1, h2, rfl, rfl, ?_, ?_⟩
  · intro htie
    have hfalse : acceptTest true (st.M yearDecay j + rc) min (st.preX yearDecay j) yearDecay
        = false := by
      rw [Bool.eq_false_iff]
      intro hacc
      exact absurd (h2.mp hacc).1 (by rw [htie]; exact lt_irrefl min)
    simp [jStep, hfalse]
  · intro htie hne hpre
    have hacc : acceptTest false (st.M yearDecay j + rc) min (st.preX yearDecay j) yearDecay
        = true := h1.mpr ⟨le_of_eq htie, hne, hpre⟩
    simp [jStep, hacc, upd2]

/-- Witness for C5: a concrete tied candidate is accepted by the impact
test and the step writes the predecessor-year pointer. -/
theorem claim_C5_witness :
    (jStep false 10 5 4 (⊤ : WithTop ℚ) 3 (initState.M 4 6 + ⊤, initState) 6).2.preX 10 5 = 4 :=
  (claim_C5 10 5 4 ⊤ 3 (initState.M 4 6 + ⊤) initState 6).2.2.2.2.2 rfl
    (by simp [initState]) (by simp [initState])

/- ----------------------------------------------------------------
   Claim C3
   ---------------------------------------------------------------- -/

/-- Claim C3, amended: during schedule reconstruction (both variants use
this identical walk, source lines 159-171 and 328-340) the walk collects
exactly the entries of the maximal prefix of the backtracking chain on
which `preX > -1` AND `preRepair > 0` both hold.  Hence an entry whose
elected repairID is 0 is not merely omitted: it terminates the walk, and
genuine repairs lying beyond an interior repairID-0 transition are cut
off from the returned schedule. -/
theorem claim_C3 : ∀ (st : DPState) (startYear : ℤ) (fuel : ℕ) (p : ℤ × ℤ),
    reconWalk st startYear fuel p =
      ((backChain st fuel p).takeWhile (reconContinue st)).map (walkEntry st startYear) := by
  intro st startYear fuel
  induction fuel with
  | zero => intro p; rfl
  | succ n ih =>
    intro p
    by_cases h : reconContinue st p = true
    · simp [reconWalk, backChain, List.takeWhile_cons, h, ih]
    · rw [Bool.not_eq_true] at h
      simp [reconWalk, backChain, List.takeWhile_cons, h]

/-- Claim C3, counterexample state: the backtracking chain
`(100,5) -> (60,4) -> (30,3) -> sentinel`, where the step out of
`(100,5)` has elected repairID 0 but the step out of `(60,4)` is a
genuine repair (id 9, year 30). -/
def cexSt3 : DPState :=
  { M := fun _ _ => 0
    preX := fun x y =>
      if x = 100 ∧ y = 5 then 60 else if x = 60 ∧ y = 4 then 30
      else if x = 30 ∧ y = 3 then -1 else -2
    preY := fun x y =>
      if x = 100 ∧ y = 5 then 4 else if x = 60 ∧ y = 4 then 3 else -2
    preRepair := fun x y => if x = 60 ∧ y = 4 then 9 else 0 }

/-- Claim C3, counterexample: on `cexSt3` the reconstruction walk from
`(100, 5)` returns the empty schedule even though the chain has a
predecessor at `(100,5)` (`preX = 60`, sentinel not reached) and a
genuine repair (id 9) one step further: the interior repairID-0 entry
terminates the walk instead of being skipped. -/
theorem claim_C3_counterexample :
    reconWalk cexSt3 0 102 (100, 5) = [] ∧
    cexSt3.preX 100 5 = 60 ∧ cexSt3.preRepair 100 5 = 0 ∧
    cexSt3.preX 60 4 = 30 ∧ cexSt3.preRepair 60 4 = 9 := by
  decide

/- ----------------------------------------------------------------
   Claim C8
   ---------------------------------------------------------------- -/

/-- Claim C8: evaluation of `mergeFourSched` at the two inputs the claim
describes.  On four empty schedules, and likewise on one nonempty plus
three empty schedules, the source dereferences the `end()` iterator of an
empty vector inside the selection loop (line 383) — undefined behaviour,
modelled as `none` — instead of returning the empty (resp. the nonempty)
schedule. -/
theorem claim_C8 :
    mergeFourSched [] [] [] [] = none ∧
    mergeFourSched [⟨4, 3⟩] [] [] [] = none := by
  decide

/- ----------------------------------------------------------------
   Claim C4
   ---------------------------------------------------------------- -/

/-- The union of the catalog-scanning categories: every category except
`seven` (the "no information available" bucket, which never scans). -/
def scanningCategories : List ℤ :=
  categoryOne ++ categoryTwo ++ categoryThree ++ categoryFour ++ categoryFive ++
    categorySix ++ categoryEight ++ categoryNine ++ categoryTen ++ categoryEleven

set_option maxHeartbeats 1000000 in
/-- Claim C4, amended: for a repairID in a catalog-scanning category, when
no catalog row has that repairID with bounds containing the requested
rating, `calEnvImpact` raises nothing and returns the value 0 that `CO2`
was freshly initialised to at line 42 — a defined "no contribution"
result, not a value reused from any previous iteration. -/
theorem claim_C4 : ∀ (bridge : BridgeInfo) (year repairID rating : ℤ)
    (repairs : RepairEnvMat) (impMat : ImproveMat),
    repairID ∈ scanningCategories →
    (∀ r ∈ repairs, ¬(r.repairID = repairID ∧ rating ≤ r.UB ∧ r.LB ≤ rating)) →
    calEnvImpact bridge year repairID rating repairs impMat = some 0 := by
  intro bridge year repairID rating repairs impMat _ hnone
  have hscan : scanRepair repairs repairID rating = none := by
    rw [scanRepair, List.find?_eq_none]
    intro r hr
    simpa using hnone r hr
  unfold calEnvImpact
  simp only [hscan]
  split_ifs <;> rfl

/-- Witness for C4: repairID 5 (category five) with a catalog row whose
bounds `[4,6]` exclude the requested rating 8. -/
theorem claim_C4_witness :
    calEnvImpact ⟨8, 10, 1, 1000, 100, 0, 0, 7, 2000⟩ 0 5 8 [⟨5, 4, 6, 2, 1, 3, 1⟩] [] = some 0 :=
  claim_C4 ⟨8, 10, 1, 1000, 100, 0, 0, 7, 2000⟩ 0 5 8 [⟨5, 4, 6, 2, 1, 3, 1⟩] []
    (by decide) (by decide)

/-- Claim C4, counterexample: at a concrete unmatched call the function
returns `some 0` — the defined fresh initialisation — contradicting the
claim that a stale value from a previous iteration is returned instead of
a defined "no contribution" result.  (The no-exception half of the claim
does hold: the model returns a value, raising nothing.) -/
theorem claim_C4_counterexample :
    calEnvImpact ⟨8, 10, 1, 1000, 100, 0, 0, 7, 2000⟩ 3 1 8 [⟨1, 4, 6, 2, 1, 3, 1⟩] [⟨5, 1/10⟩]
      = some 0 := by
  decide

/- ----------------------------------------------------------------
   Claim C1
   ---------------------------------------------------------------- -/

/-- Claim C1, counterexample: an upward-opening fit (`a = 1 > 0`) whose
vertex rating 0 lies BELOW the floor 3 passes validation (the claim says
it must fail with the low-range error), and a downward-opening fit
(`a = -1`) whose vertex rating 9 is at the top of the scale passes
validation (the claim says a vertex at or above 9 must fail with the
high-range error). -/
theorem claim_C1_counterexample :
    (0 : ℚ) < 1 ∧ vertexVal 1 0 0 < (3 : ℚ) ∧
      ratingDecayValidate 1 0 0 3 = Except.ok () ∧
    (-1 : ℚ) < 0 ∧ (9 : ℚ) ≤ vertexVal (-1) 0 9 ∧
      ratingDecayValidate (-1) 0 9 5 = Except.ok () := by
  norm_num [ratingDecayValidate, vertexVal]

/-- Claim C1, amended: the validation of the fitted curve raises the
low-range error for an upward-opening fit exactly when the vertex rating
EXCEEDS the floor (succeeding when it is at most the floor), and raises
the high-range error for a downward-opening fit exactly when the vertex
rating is BELOW 9 (succeeding when it is at least 9). -/
theorem claim_C1 : ∀ (a b c : ℚ) (limit : ℤ),
    (0 < a →
      ((ratingDecayValidate a b c limit =
          Except.error "Need more low condition rating data.") ↔
        (limit : ℚ) < vertexVal a b c) ∧
      (ratingDecayValidate a b c limit = Except.ok () ↔
        vertexVal a b c ≤ (limit : ℚ))) ∧
    (a < 0 →
      ((ratingDecayValidate a b c limit =
          Except.error "Need more high condition rating data.") ↔
        vertexVal a b c < 9) ∧
      (ratingDecayValidate a b c limit = Except.ok () ↔
        (9 : ℚ) ≤ vertexVal a b c)) := by
  intro a b c limit
  constructor
  · intro ha
    constructor
    · constructor
      · intro he
        by_contra hlt
        push_neg at hlt
        rw [ratingDecayValidate, if_pos ha, if_neg (not_lt.mpr hlt)] at he
        exact Except.noConfusion he
      · intro h
        rw [ratingDecayValidate, if_pos ha, if_pos h]
    · constructor
      · intro he
        by_contra hlt
        push_neg at hlt
        rw [ratingDecayValidate, if_pos ha, if_pos hlt] at he
        exact Except.noConfusion he
      · intro h
        rw [ratingDecayValidate, if_pos ha, if_neg (not_lt.mpr h)]
  · intro ha
    have ha' : ¬ 0 < a := not_lt.mpr (le_of_lt ha)
    constructor
    · constructor
      · intro he
        by_contra hlt
        push_neg at hlt
        rw [ratingDecayValidate, if_neg ha', if_neg (not_lt.mpr hlt)] at he
        exact Except.noConfusion he
      · intro h
        rw [ratingDecayValidate, if_neg ha', if_pos h]
    · constructor
      · intro he
        by_contra hlt
        push_neg at hlt
        rw [ratingDecayValidate, if_neg ha', if_pos hlt] at he
        exact Except.noConfusion he
      · intro h
        rw [ratingDecayValidate, if_neg ha', if_neg (not_lt.mpr h)]

/-- Witness for C1: `a = 1 > 0`, vertex 0 at most the floor 3, so
validation succeeds. -/
theorem claim_C1_witness : ratingDecayValidate 1 0 0 3 = Except.ok () :=
  ((claim_C1 1 0 0 3).1 (by norm_num)).2.mpr (by norm_num [vertexVal])

/- ----------------------------------------------------------------
   Claim C7
   ---------------------------------------------------------------- -/

/-- A successful validation means either an upward-opening fit with
vertex at most the floor, or a downward-opening fit with vertex at least
9 (a degenerate fit `a = 0` never validates: the vertex expression is a
division by zero, 0 in the rational model, and `0 < 9`). -/
theorem validate_ok_cases {a b c : ℚ} {limit : ℤ}
    (hv : ratingDecayValidate a b c limit = Except.ok ()) :
    (0 < a ∧ vertexVal a b c ≤ (limit : ℚ)) ∨ (a < 0 ∧ (9 : ℚ) ≤ vertexVal a b c) := by
  by_cases ha : 0 < a
  · left
    refine ⟨ha, ?_⟩
    by_contra h
    push_neg at h
    rw [ratingDecayValidate, if_pos ha, if_pos h] at hv
    exact Except.noConfusion hv
  · right
    have h9 : (9 : ℚ) ≤ vertexVal a b c := by
      by_contra h
      push_neg at h
      rw [ratingDecayValidate, if_neg ha, if_pos h] at hv
      exact Except.noConfusion hv
    refine ⟨?_, h9⟩
    rcases lt_or_eq_of_le (not_lt.mp ha) with h0 | h0
    · exact h0
    · exfalso
      subst h0
      norm_num [vertexVal] at h9

/-- The shifted discriminant `b^2 - 4a(c - x)` rewritten through the
vertex rating: `4a (x - vertex)`. -/
theorem disc_eq (a b c : ℚ) (x : ℝ) (ha : (a : ℝ) ≠ 0) :
    (b : ℝ) ^ 2 - 4 * (a : ℝ) * ((c : ℝ) - x) =
      4 * (a : ℝ) * (x - ((vertexVal a b c : ℚ) : ℝ)) := by
  have hvx : ((vertexVal a b c : ℚ) : ℝ) = (-(b : ℝ) ^ 2 + 4 * a * c) / (4 * a) := by
    rw [vertexVal]
    push_cast
    ring_nf
  rw [hvx]
  field_simp
  ring

/-- On the validated range the solved time points strictly decrease as
the rating increases: the asset reaches higher ratings earlier. -/
theorem timePoints_anti {a b c : ℚ} {limit : ℤ}
    (hv : ratingDecayValidate a b c limit = Except.ok ()) :
    ∀ x y : ℤ, limit ≤ y → y < x → x ≤ 9 →
      timePoints a b c x < timePoints a b c y := by
  intro x y hy hyx hx
  rcases validate_ok_cases hv with ⟨ha, hvx⟩ | ⟨ha, hvx⟩
  · have haR : (0 : ℝ) < (a : ℝ) := by exact_mod_cast ha
    have hv' : ((vertexVal a b c : ℚ) : ℝ) ≤ (limit : ℝ) := by exact_mod_cast hvx
    have hyR : ((vertexVal a b c : ℚ) : ℝ) ≤ (y : ℝ) :=
      le_trans hv' (by exact_mod_cast hy)
    have hxyR : (y : ℝ) < (x : ℝ) := by exact_mod_cast hyx
    have hDy : (0 : ℝ) ≤ (b : ℝ) ^ 2 - 4 * (a : ℝ) * ((c : ℝ) - (y : ℝ)) := by
      rw [disc_eq a b c _ (ne_of_gt haR)]
      nlinarith
    have hDlt : (b : ℝ) ^ 2 - 4 * (a : ℝ) * ((c : ℝ) - (y : ℝ)) <
        (b : ℝ) ^ 2 - 4 * (a : ℝ) * ((c : ℝ) - (x : ℝ)) := by
      nlinarith
    have hs := Real.sqrt_lt_sqrt hDy hDlt
    have h2a : (0 : ℝ) < 2 * (a : ℝ) := by linarith
    rw [timePoints, timePoints]
    exact (div_lt_div_iff_of_pos_right h2a).mpr (by linarith)
  · have haR : (a : ℝ) < 0 := by exact_mod_cast ha
    have hv' : (9 : ℝ) ≤ ((vertexVal a b c : ℚ) : ℝ) := by exact_mod_cast hvx
    have hxR : (x : ℝ) ≤ ((vertexVal a b c : ℚ) : ℝ) :=
      le_trans (by exact_mod_cast hx) hv'
    have hxyR : (y : ℝ) < (x : ℝ) := by exact_mod_cast hyx
    have hDx : (0 : ℝ) ≤ (b : ℝ) ^ 2 - 4 * (a : ℝ) * ((c : ℝ) - (x : ℝ)) := by
      rw [disc_eq a b c _ (ne_of_lt haR)]
      nlinarith
    have hDlt : (b : ℝ) ^ 2 - 4 * (a : ℝ) * ((c : ℝ) - (x : ℝ)) <
        (b : ℝ) ^ 2 - 4 * (a : ℝ) * ((c : ℝ) - (y : ℝ)) := by
      nlinarith
    have hs := Real.sqrt_lt_sqrt hDx hDlt
    have h2a : 2 * (a : ℝ) < 0 := by linarith
    rw [timePoints, timePoints]
    exact (div_lt_div_right_of_neg h2a).mpr (by linarith)

/-- Coefficient-level form of the amended C7: non-negative entries,
non-strictly monotone in the target rating. -/
theorem ratingsDecayTable_nonneg_mono {a b c : ℚ} {limit : ℤ}
    (hv : ratingDecayValidate a b c limit = Except.ok ())
    (i j j' : ℤ) (h1 : limit ≤ j') (h2 : j' < j) (h3 : j < i) (h4 : i ≤ 9) :
    0 ≤ ratingsDecayTable a b c i j ∧
      ratingsDecayTable a b c i j ≤ ratingsDecayTable a b c i j' := by
  have hij : timePoints a b c i < timePoints a b c j :=
    timePoints_anti hv i j (by omega) h3 h4
  have hjj' : timePoints a b c j < timePoints a b c j' :=
    timePoints_anti hv j j' h1 h2 (by omega)
  constructor
  · rw [ratingsDecayTable]
    exact Int.floor_nonneg.mpr (by linarith)
  · rw [ratingsDecayTable, ratingsDecayTable]
    exact Int.floor_le_floor (by linarith)

/-- Claim C7, amended: for every sample set whose fitted curve passes
validation with floor `limit`, the derived decay table has, for all
ratings `i > j ≥ limit` (with `i ≤ 9`), non-negative integer entries
that are NON-STRICTLY increasing as the target rating `j` decreases
(plateaus occur whenever consecutive crossing times differ by less than
a year, so the claimed strict increase fails; see the counterexample). -/
theorem claim_C7 : ∀ (ratings : ComponentRatingMat) (limit : ℤ) (table : ℤ → ℤ → ℤ),
    ratingDecay ratings limit = Except.ok table →
    ∀ i j j' : ℤ, limit ≤ j' → j' < j → j < i → i ≤ 9 →
      0 ≤ table i j ∧ table i j ≤ table i j' := by
  intro ratings limit table h i j j' h1 h2 h3 h4
  rcases hp : polyFit 3 ratings with ⟨a, b, c⟩
  rw [ratingDecay, hp] at h
  dsimp only [] at h
  cases hval : ratingDecayValidate a b c limit with
  | error e =>
    rw [hval] at h
    exact Except.noConfusion h
  | ok u =>
    cases u
    rw [hval] at h
    dsimp only [] at h
    rw [Except.ok.injEq] at h
    rw [← h]
    exact ratingsDecayTable_nonneg_mono hval i j j' h1 h2 h3 h4

/-- A concrete inspection history: ratings 9, 8, 5 observed in years
2000, 2001, 2002 — these lie exactly on the parabola
`rating = 9 - t^2` (with `t` years since the first inspection). -/
def ratings905 : ComponentRatingMat := ⟨[9, 8, 5], [2000, 2001, 2002]⟩

/-- The least-squares fit of `ratings905` recovers the interpolating
parabola: leading coefficient -1, linear coefficient 0, constant 9. -/
theorem polyFit_ratings905 : polyFit 3 ratings905 = (-1, 0, 9) := by
  norm_num [polyFit, ratings905, gaussianElimination, gaussElimForward, readDataX,
    readDataY, f, fy, F, upd1, updB, List.range', List.range_succ, List.range_zero,
    List.getD, List.foldl]

/-- `ratingDecay` on `ratings905` with floor 5 succeeds and yields the
decay table of the fitted parabola. -/
theorem ratingDecay_ratings905 :
    ratingDecay ratings905 5 = Except.ok (fun i j => ratingsDecayTable (-1) 0 9 i j) := by
  rw [ratingDecay, polyFit_ratings905]
  dsimp only []
  have hval : ratingDecayValidate (-1) 0 9 5 = Except.ok () := by
    norm_num [ratingDecayValidate, vertexVal]
  rw [hval]

/-- The crossing time of rating 9 on the fitted curve is 0. -/
theorem timePoints905_9 : timePoints (-1) 0 9 9 = 0 := by
  rw [timePoints]
  norm_num

/-- The crossing time of rating 8 on the fitted curve is 1. -/
theorem timePoints905_8 : timePoints (-1) 0 9 8 = 1 := by
  rw [timePoints]
  have h : ((0 : ℚ) : ℝ) ^ 2 - 4 * ((-1 : ℚ) : ℝ) * (((9 : ℚ) : ℝ) - ((8 : ℤ) : ℝ)) = 2 ^ 2 := by
    norm_num
  rw [h, Real.sqrt_sq (by norm_num : (0 : ℝ) ≤ 2)]
  norm_num

/-- The crossing time of rating 7 on the fitted curve is `sqrt 8 / 2`. -/
theorem timePoints905_7 : timePoints (-1) 0 9 7 = Real.sqrt 8 / 2 := by
  rw [timePoints]
  have h : ((0 : ℚ) : ℝ) ^ 2 - 4 * ((-1 : ℚ) : ℝ) * (((9 : ℚ) : ℝ) - ((7 : ℤ) : ℝ)) = 8 := by
    norm_num
  rw [h]
  push_cast
  ring

/-- Bounds for `sqrt 8`. -/
theorem sqrt8_bounds : (2 : ℝ) ≤ Real.sqrt 8 ∧ Real.sqrt 8 < 4 := by
  constructor
  · have h4 : Real.sqrt 4 = 2 := by
      rw [show (4 : ℝ) = 2 ^ 2 by norm_num, Real.sqrt_sq (by norm_num : (0 : ℝ) ≤ 2)]
    rw [← h4]
    exact Real.sqrt_le_sqrt (by norm_num)
  · have h16 : Real.sqrt 16 = 4 := by
      rw [show (16 : ℝ) = 4 ^ 2 by norm_num, Real.sqrt_sq (by norm_num : (0 : ℝ) ≤ 4)]
    rw [← h16]
    exact Real.sqrt_lt_sqrt (by norm_num) (by norm_num)

/-- Claim C7, counterexample: the sample set `ratings905` passes
validation with floor 5, yet its decay table has
`DecayTable[9][8] = DecayTable[9][7] = 1`: for fixed source rating 9 the
entry does NOT strictly increase when the target rating decreases from 8
to 7 (both decays floor to one year), refuting the claimed strict
monotonicity. -/
theorem claim_C7_counterexample :
    ratingDecay ratings905 5 = Except.ok (fun i j => ratingsDecayTable (-1) 0 9 i j) ∧
    ratingsDecayTable (-1) 0 9 9 8 = 1 ∧
    ratingsDecayTable (-1) 0 9 9 7 = 1 := by
  refine ⟨ratingDecay_ratings905, ?_, ?_⟩
  · rw [ratingsDecayTable, timePoints905_8, timePoints905_9]
    norm_num
  · rw [ratingsDecayTable, timePoints905_7, timePoints905_9]
    obtain ⟨hlo, hhi⟩ := sqrt8_bounds
    rw [Int.floor_eq_iff]
    constructor
    · push_cast
      linarith
    · push_cast
      linarith

/-- Witness for C7 on `ratings905` at `i = 9, j = 8, j' = 7`. -/
theorem claim_C7_witness :
    0 ≤ ratingsDecayTable (-1) 0 9 9 8 ∧
      ratingsDecayTable (-1) 0 9 9 8 ≤ ratingsDecayTable (-1) 0 9 9 7 :=
  claim_C7 ratings905 5 (fun i j => ratingsDecayTable (-1) 0 9 i j)
    ratingDecay_ratings905 9 8 7 (by norm_num) (by norm_num) (by norm_num) (by norm_num)

/- ----------------------------------------------------------------
   Predecessor-pointer invariant (for C9 and C10)
   ---------------------------------------------------------------- -/

/-- Decay-table hypotheses under which the backtracking walks terminate:
every off-diagonal entry used by the transitions is at least one year,
every diagonal entry is non-negative. -/
def TableOK (limit : ℤ) (table : ℤ → ℤ → ℤ) : Prop :=
  (∀ i j, limit ≤ j → j < i → i ≤ 8 → 1 ≤ table i j) ∧
  (∀ i, limit ≤ i → i ≤ 8 → 0 ≤ table i i)

/-- Soundness of an `i`-loop range: it only scans ratings between
`rating` and 8. -/
def RangeOK (iR : ℤ → List ℤ) : Prop :=
  ∀ rating i, i ∈ iR rating → rating ≤ i ∧ i ≤ 8

theorem rangeOK_env : RangeOK iRangeEnv := by
  intro rating i hi
  have := mem_intRange.mp hi
  omega

theorem rangeOK_cost : RangeOK iRangeCost := by
  intro rating i hi
  exact mem_intRange.mp hi

/-- The predecessor-pointer invariant: at every cell with non-negative
year the predecessor's year strictly decreases, or stays equal with the
predecessor rating strictly below the cell's own rating (and at least
the floor); cells at negative years hold a stopping value. -/
def PtrInv (limit : ℤ) (st : DPState) : Prop :=
  ∀ x y : ℤ,
    (x < 0 → st.preX x y < 0) ∧
    (0 ≤ x → st.preX x y < x ∨
      (st.preX x y = x ∧ limit ≤ st.preY x y ∧ st.preY x y < y))

theorem ptrInv_init (limit : ℤ) : PtrInv limit initState := by
  intro x y
  constructor
  · intro _
    norm_num [initState]
  · intro hx
    left
    show (-2 : ℤ) < x
    omega

/-- Writing one predecessor triple preserves the invariant when the
written pointer itself decreases (the `M` component is irrelevant). -/
theorem ptrInv_write {limit : ℤ} {st : DPState} (h : PtrInv limit st)
    (M' : ℤ → ℤ → WithTop ℚ) (X Y xv yv rv : ℤ)
    (hx : X < 0 → xv < 0)
    (hv : 0 ≤ X → xv < X ∨ (xv = X ∧ limit ≤ yv ∧ yv < Y)) :
    PtrInv limit
      { M := M'
        preX := upd2 st.preX X Y xv
        preY := upd2 st.preY X Y yv
        preRepair := upd2 st.preRepair X Y rv } := by
  intro x y
  by_cases hxy : x = X ∧ y = Y
  · obtain ⟨rfl, rfl⟩ := hxy
    constructor
    · intro h1
      show upd2 st.preX x y xv x y < 0
      simp only [upd2, and_self, if_true]
      exact hx h1
    · intro h1
      show upd2 st.preX x y xv x y < x ∨ _
      simp only [upd2, and_self, if_true]
      exact hv h1
  · constructor
    · intro h1
      show upd2 st.preX X Y xv x y < 0
      simp only [upd2, if_neg hxy]
      exact (h x y).1 h1
    · intro h1
      show upd2 st.preX X Y xv x y < x ∨
        (upd2 st.preX X Y xv x y = x ∧ limit ≤ upd2 st.preY X Y yv x y ∧
          upd2 st.preY X Y yv x y < y)
      simp only [upd2, if_neg hxy]
      exact (h x y).2 h1

theorem ptrInv_jStep {limit : ℤ} (strict : Bool) (year rating yearDecay : ℤ)
    (rc : WithTop ℚ) (rid : ℤ) (acc : WithTop ℚ × DPState) (j : ℤ)
    (h : PtrInv limit acc.2) (hyear : 0 ≤ year)
    (hval : yearDecay < year ∨ (yearDecay = year ∧ limit ≤ j ∧ j < rating)) :
    PtrInv limit (jStep strict year rating yearDecay rc rid acc j).2 := by
  rw [jStep]
  dsimp only
  split
  · exact ptrInv_write h _ year rating yearDecay j rid (fun hneg => absurd hyear (by omega))
      (fun _ => hval)
  · exact h

theorem ptrInv_jLoop (P : DPParams) (year rating i yearDecay : ℤ)
    (acc : WithTop ℚ × DPState) (h : PtrInv P.limit acc.2) (hyear : 0 ≤ year)
    (hval : yearDecay < year ∨ (yearDecay = year ∧ i ≤ rating)) :
    PtrInv P.limit (jLoop P year rating i yearDecay acc).2 := by
  rw [jLoop]
  exact foldl_preserve
    (fun s : (WithTop ℚ × ℤ) × (WithTop ℚ × DPState) => PtrInv P.limit s.2.2) _
    (intRange P.limit (i - 1)) ((⊤, 0), acc) h
    (fun s j hj hQ => by
      have hjm := mem_intRange.mp hj
      exact ptrInv_jStep P.strict year rating yearDecay _ _ s.2 j hQ hyear
        (by rcases hval with h1 | ⟨h1, h2⟩
            · exact Or.inl h1
            · exact Or.inr ⟨h1, hjm.1, by omega⟩))

theorem ptrInv_iLoop (P : DPParams) (year rating : ℤ) (hT : TableOK P.limit P.table)
    (hyear : 0 ≤ year) (hrating : P.limit ≤ rating) :
    ∀ l : List ℤ, (∀ i ∈ l, rating ≤ i ∧ i ≤ 8) →
      ∀ acc : WithTop ℚ × DPState, PtrInv P.limit acc.2 →
        PtrInv P.limit (iLoop P year rating l acc).2 := by
  intro l
  induction l with
  | nil => intro _ acc h; exact h
  | cons i rest ih =>
    intro hmem acc h
    rw [iLoop]
    split
    · exact h
    · refine ih (fun i' hi' => hmem i' (List.mem_cons_of_mem i hi')) _ ?_
      obtain ⟨hi1, hi2⟩ := hmem i (List.mem_cons_self i rest)
      refine ptrInv_jLoop P year rating i (year - P.table i rating) acc h hyear ?_
      rcases eq_or_lt_of_le hi1 with heq | hlt
      · have h0 := hT.2 i (by omega) hi2
        rw [← heq] at h0 ⊢
        omega
      · have h1 := hT.1 i rating hrating hlt hi2
        left
        omega

theorem ptrInv_cellStep (P : DPParams) (year rating : ℤ) (st : DPState)
    (hT : TableOK P.limit P.table) (hR : RangeOK P.iRange)
    (hyear : 0 ≤ year) (hrating : P.limit ≤ rating) (h : PtrInv P.limit st) :
    PtrInv P.limit (cellStep P year st rating) := by
  rw [cellStep]
  split
  · exact h
  · exact ptrInv_iLoop P year rating hT hyear hrating (P.iRange rating)
      (fun i hi => hR rating i hi) (⊤, st) h

theorem ptrInv_applyBoundary (table : ℤ → ℤ → ℤ) (sR limit : ℤ) (st : DPState)
    (h : PtrInv limit st) : PtrInv limit (applyBoundary table sR limit st) := by
  rw [applyBoundary]
  refine foldl_preserve (PtrInv limit) _ _ _ h ?_
  intro st1 rating _ h1
  refine foldl_preserve (PtrInv limit) _ _ _ h1 ?_
  intro st2 year _ h2
  refine foldl_preserve (PtrInv limit) _ _ _ h2 ?_
  intro st3 i _ h3
  exact ptrInv_write h3 _ year i (-1) 0 0 (fun _ => by omega)
    (fun hy => Or.inl (by omega))

theorem ptrInv_dpFill (P : DPParams) (hT : TableOK P.limit P.table)
    (hR : RangeOK P.iRange) : PtrInv P.limit (dpFill P) := by
  rw [dpFill]
  refine foldl_preserve (PtrInv P.limit) _ _ _
    (ptrInv_applyBoundary P.table P.bridge.startRating P.limit initState
      (ptrInv_init P.limit)) ?_
  intro st year hyear h
  have hy := mem_intRange.mp hyear
  refine foldl_preserve (PtrInv P.limit) _ _ _ h ?_
  intro st' rating hrating h'
  have hr := mem_intRange.mp hrating
  exact ptrInv_cellStep P year rating st' hT hR hy.1 hr.1 h'

/-- Under the pointer invariant every backtracking walk halts: any stop
predicate that can only be false at cells with a non-negative
predecessor year is eventually reached. -/
theorem walk_halts {limit : ℤ} {st : DPState} (hP : PtrInv limit st)
    (S : ℤ × ℤ → Prop) (hS : ∀ p, ¬ S p → 0 ≤ st.preX p.1 p.2) :
    ∀ x y : ℤ, ∃ n : ℕ, S ((backNext st)^[n] (x, y)) := by
  have main : ∀ N : ℕ, ∀ x : ℤ, x.toNat < N → ∀ M : ℕ, ∀ y : ℤ, (y - limit).toNat < M →
      ∃ n : ℕ, S ((backNext st)^[n] (x, y)) := by
    intro N
    induction N with
    | zero => intro x hx; omega
    | succ N ihN =>
      intro x hxN M
      induction M with
      | zero => intro y hy; omega
      | succ M ihM =>
        intro y hyM
        by_cases hstop : S (x, y)
        · exact ⟨0, hstop⟩
        · have hx0 : 0 ≤ st.preX x y := hS (x, y) hstop
          have hx : 0 ≤ x := by
            by_contra hneg
            push_neg at hneg
            have := (hP x y).1 hneg
            omega
          rcases (hP x y).2 hx with hlt | ⟨heq, hy1, hy2⟩
          · obtain ⟨n, hn⟩ := ihN (st.preX x y) (by omega)
              ((st.preY x y - limit).toNat + 1) (st.preY x y) (by omega)
            refine ⟨n + 1, ?_⟩
            rw [Function.iterate_succ_apply]
            exact hn
          · obtain ⟨n, hn⟩ := ihM (st.preY x y) (by omega)
            refine ⟨n + 1, ?_⟩
            rw [Function.iterate_succ_apply]
            have hb : backNext st (x, y) = (x, st.preY x y) := by
              rw [backNext, heq]
            rw [hb]
            exact hn
  intro x y
  exact main (x.toNat + 1) x (by omega) ((y - limit).toNat + 1) y (by omega)

theorem printWalkHalts_of_inv {limit : ℤ} {st : DPState} (hP : PtrInv limit st) :
    ∀ x y : ℤ, printWalkHalts st x y := by
  intro x y
  exact walk_halts hP (fun p => st.preX p.1 p.2 < 0)
    (fun p hp => by omega) x y

theorem reconHalts_of_inv {limit : ℤ} {st : DPState} (hP : PtrInv limit st) :
    ∀ x y : ℤ, reconHalts st x y := by
  intro x y
  refine walk_halts hP (fun p => reconContinue st p = false) (fun p hp => ?_) x y
  rw [Bool.not_eq_false] at hp
  rw [reconContinue, Bool.and_eq_true, decide_eq_true_eq, decide_eq_true_eq] at hp
  omega

/- ----------------------------------------------------------------
   Claim C9
   ---------------------------------------------------------------- -/

set_option maxHeartbeats 1000000 in
/-- Claim C9, amended: the DP fill is a bounded fold (total by
construction in this model, mirroring the fixed 101 x 9 x |catalog|
loops), and whenever every decay-table entry used by the transitions is
at least one year off the diagonal and non-negative on the diagonal, the
per-final-condition printing walks and the schedule-reconstruction walks
of BOTH scheduler variants halt from every start cell.  (Without that
restriction on the table the walks can loop forever; see the
counterexample.) -/
theorem claim_C9 : ∀ (bridge : BridgeInfo) (table : ℤ → ℤ → ℤ)
    (repairs : RepairEnvMat) (costs : CostMap) (impMat : ImproveMat) (limit : ℤ),
    TableOK limit table →
    ∀ x y : ℤ,
      printWalkHalts (envFill bridge table repairs impMat limit) x y ∧
      reconHalts (envFill bridge table repairs impMat limit) x y ∧
      printWalkHalts (costFill bridge table repairs costs impMat limit) x y ∧
      reconHalts (costFill bridge table repairs costs impMat limit) x y := by
  intro bridge table repairs costs impMat limit hT x y
  have hPenv : PtrInv limit (envFill bridge table repairs impMat limit) :=
    ptrInv_dpFill (envParams bridge table repairs impMat limit) hT rangeOK_env
  have hPcost : PtrInv limit (costFill bridge table repairs costs impMat limit) :=
    ptrInv_dpFill (costParams bridge table repairs costs impMat limit) hT rangeOK_cost
  exact ⟨printWalkHalts_of_inv hPenv x y, reconHalts_of_inv hPenv x y,
    printWalkHalts_of_inv hPcost x y, reconHalts_of_inv hPcost x y⟩

/-- Witness for C9: a table with unit off-diagonal decay and zero
diagonal, empty catalog, start cell (100, 7). -/
theorem claim_C9_witness :
    printWalkHalts (envFill ⟨0, 0, 0, 0, 0, 0, 0, 8, 2000⟩
      (fun i j => if i = j then 0 else 1) [] [] 5) 100 7 ∧
    reconHalts (envFill ⟨0, 0, 0, 0, 0, 0, 0, 8, 2000⟩
      (fun i j => if i = j then 0 else 1) [] [] 5) 100 7 ∧
    printWalkHalts (costFill ⟨0, 0, 0, 0, 0, 0, 0, 8, 2000⟩
      (fun i j => if i = j then 0 else 1) [] (fun _ => 0) [] 5) 100 7 ∧
    reconHalts (costFill ⟨0, 0, 0, 0, 0, 0, 0, 8, 2000⟩
      (fun i j => if i = j then 0 else 1) [] (fun _ => 0) [] 5) 100 7 :=
  claim_C9 ⟨0, 0, 0, 0, 0, 0, 0, 8, 2000⟩ (fun i j => if i = j then 0 else 1)
    [] (fun _ => 0) [] 5
    ⟨fun i j _ h2 _ => by have hne : ¬ i = j := by omega
                          simp [hne],
     fun i _ _ => by simp⟩
    100 7

/-- Claim C9, counterexample inputs: start rating 8, floor 7, the
all-zero decay table, empty catalog. -/
def cexBridge9 : BridgeInfo := ⟨0, 0, 0, 0, 0, 0, 0, 8, 0⟩

/-- The impact-variant DP state for the C9 counterexample inputs. -/
def cexFill9 : DPState := envFill cexBridge9 (fun _ _ => 0) [] [] 7

set_option maxRecDepth 1000000 in
/-- Claim C9, counterexample: with the all-zero decay table the DP
accepts self-referential predecessors (`preX[100][7] = 100`,
`preY[100][7] = 7`), so the printing walk that the scheduler runs for
final condition 7 — the only one scanned when `limit = 7` — starts at
`(100, 7)` and never reaches a cell with `preX < 0`: the
`while (preX[x][y] >= 0)` loop of the source runs forever, refuting
termination for arbitrary decay tables. -/
theorem claim_C9_counterexample : ¬ printWalkHalts cexFill9 100 7 := by
  have hfix : backNext cexFill9 (100, 7) = (100, 7) ∧ cexFill9.preX 100 7 = 100 := by
    decide
  rintro ⟨n, hn⟩
  rw [Function.iterate_fixed hfix.1 n] at hn
  rw [hfix.2] at hn
  omega

/- ----------------------------------------------------------------
   Claim C10
   ---------------------------------------------------------------- -/

/-- Under the pointer invariant the reconstruction walk emits entries
with non-increasing years (the walk goes backwards in time). -/
theorem reconWalk_years {limit : ℤ} {st : DPState} (hP : PtrInv limit st) (sY : ℤ) :
    ∀ (fuel : ℕ) (x y : ℤ),
      List.Chain' (fun p q : Pair => q.repairYear ≤ p.repairYear)
        (reconWalk st sY fuel (x, y)) := by
  intro fuel
  induction fuel with
  | zero => intro x y; simp [reconWalk]
  | succ n ih =>
    intro x y
    rw [reconWalk]
    by_cases hcont : reconContinue st (x, y) = true
    · rw [if_pos hcont]
      rw [List.chain'_cons']
      constructor
      · intro b hb
        cases n with
        | zero => simp [reconWalk] at hb
        | succ m =>
          rw [reconWalk] at hb
          by_cases hc2 : reconContinue st (backNext st (x, y)) = true
          · rw [if_pos hc2, List.head?_cons, Option.mem_some_iff] at hb
            subst hb
            have h1 : (0 : ℤ) ≤ st.preX x y := by
              rw [reconContinue, Bool.and_eq_true, decide_eq_true_eq,
                decide_eq_true_eq] at hcont
              dsimp only at hcont
              omega
            have h2 := (hP (st.preX x y) (st.preY x y)).2 h1
            rw [walkEntry, walkEntry, backNext]
            dsimp only
            rcases h2 with h | ⟨h, _⟩ <;> omega
          · rw [if_neg hc2] at hb
            simp at hb
      · exact ih (st.preX x y) (st.preY x y)
    · rw [if_neg hcont]
      exact List.chain'_nil

set_option maxHeartbeats 1000000 in
/-- Claim C10: both scheduler variants only append to the caller's
`optSchedule`: unconditionally, the returned schedule is the input
schedule followed by a (possibly empty) suffix of newly reconstructed
entries, so every pre-existing entry stays unchanged in its original
position; and whenever the decay table satisfies the sanity conditions
of C9 (under which the walks terminate at all), the appended suffixes
are chronologically ordered (non-decreasing repair years). -/
theorem claim_C10 : ∀ (bridge : BridgeInfo) (table : ℤ → ℤ → ℤ)
    (repairs : RepairEnvMat) (costs : CostMap) (impMat : ImproveMat) (limit : ℤ)
    (sched : RepairSchedule) (fuel : ℕ),
    (∃ t1 : List Pair,
      (findOptEnvSchedule bridge table repairs impMat limit sched fuel).2 =
        sched ++ t1) ∧
    (∃ t2 : List Pair,
      (findOptCostSchedule bridge table repairs costs impMat limit sched fuel).2 =
        sched ++ t2) ∧
    (TableOK limit table →
      ∃ t1 t2 : List Pair,
        (findOptEnvSchedule bridge table repairs impMat limit sched fuel).2 =
          sched ++ t1 ∧
        List.Chain' (fun p q : Pair => p.repairYear ≤ q.repairYear) t1 ∧
        (findOptCostSchedule bridge table repairs costs impMat limit sched fuel).2 =
          sched ++ t2 ∧
        List.Chain' (fun p q : Pair => p.repairYear ≤ q.repairYear) t2) := by
  intro bridge table repairs costs impMat limit sched fuel
  refine ⟨⟨_, pushLoop_eq sched _⟩, ⟨_, pushLoop_eq sched _⟩, ?_⟩
  intro hT
  have hPenv : PtrInv limit (envFill bridge table repairs impMat limit) :=
    ptrInv_dpFill (envParams bridge table repairs impMat limit) hT rangeOK_env
  have hPcost : PtrInv limit (costFill bridge table repairs costs impMat limit) :=
    ptrInv_dpFill (costParams bridge table repairs costs impMat limit) hT rangeOK_cost
  refine ⟨(reconWalk (envFill bridge table repairs impMat limit) bridge.startYear fuel
      (100, (optFinalFold (envFill bridge table repairs impMat limit) limit).2)).reverse,
    (reconWalk (costFill bridge table repairs costs impMat limit) bridge.startYear fuel
      (100, (optFinalFold (costFill bridge table repairs costs impMat limit) limit).2)).reverse,
    ?_, ?_, ?_, ?_⟩
  · exact pushLoop_eq sched _
  · rw [List.chain'_reverse]
    exact reconWalk_years hPenv bridge.startYear fuel 100 _
  · exact pushLoop_eq sched _
  · rw [List.chain'_reverse]
    exact reconWalk_years hPcost bridge.startYear fuel 100 _

/-- Witness for C10 at concrete inputs (unit off-diagonal decay table,
empty catalog, a one-entry pre-existing schedule), with the table
hypothesis discharged. -/
theorem claim_C10_witness :
    ∃ t1 t2 : List Pair,
      (findOptEnvSchedule ⟨0, 0, 0, 0, 0, 0, 0, 8, 2000⟩
          (fun i j => if i = j then 0 else 1) [] [] 5 [⟨3, 1995⟩] 1000).2 =
        [⟨3, 1995⟩] ++ t1 ∧
      List.Chain' (fun p q : Pair => p.repairYear ≤ q.repairYear) t1 ∧
      (findOptCostSchedule ⟨0, 0, 0, 0, 0, 0, 0, 8, 2000⟩
          (fun i j => if i = j then 0 else 1) [] (fun _ => 0) [] 5 [⟨3, 1995⟩] 1000).2 =
        [⟨3, 1995⟩] ++ t2 ∧
      List.Chain' (fun p q : Pair => p.repairYear ≤ q.repairYear) t2 :=
  (claim_C10 ⟨0, 0, 0, 0, 0, 0, 0, 8, 2000⟩ (fun i j => if i = j then 0 else 1)
    [] (fun _ => 0) [] 5 [⟨3, 1995⟩] 1000).2.2
    ⟨fun i j _ h2 _ => by have hne : ¬ i = j := by omega
                          simp [hne],
     fun i _ _ => by simp⟩

/- ----------------------------------------------------------------
   Claim C2
   ---------------------------------------------------------------- -/

/-- Ordering of schedule entries by repair year. -/
def yearLE (p q : Pair) : Prop := p.repairYear ≤ q.repairYear

/-- The head entry's year of schedule `i` at the current iterator
position (meaningful when the iterator is in range). -/
def headY (vecs : MergeVecs) (idx : Fin 4 → ℕ) (i : Fin 4) : ℤ :=
  ((vecs i).getD (idx i) ⟨0, 0⟩).repairYear

/-- In-range `get?` is the defaulted `getD`. -/
theorem get?_eq_getD {l : List Pair} {n : ℕ} (h : n < l.length) :
    l.get? n = some (l.getD n ⟨0, 0⟩) := by
  rw [List.get?_eq_getElem?, List.getElem?_eq_getElem h, List.getD_eq_getElem?_getD,
    List.getElem?_eq_getElem h]
  rfl

/-- Full characterisation of the selection loop: it returns the minimum
of the initial threshold and the live head years, and selects the LAST
(largest-index, since the scan order is ascending) live schedule whose
head year attains that minimum. -/
theorem selLoop_spec (vecs : MergeVecs) (idx : Fin 4 → ℕ) (ends : Fin 4 → Bool)
    (hlive : ∀ i, ends i = false → idx i < (vecs i).length) :
    ∀ (L : List (Fin 4)) (m₀ : ℤ) (s₀ : Option (Fin 4)),
      L.Pairwise (· < ·) →
      (∀ w, s₀ = some w → ends w = false ∧ headY vecs idx w = m₀) →
      ∃ m' s', selLoop vecs idx ends L (m₀, s₀) = some (m', s') ∧
        m' ≤ m₀ ∧
        (∀ k ∈ L, ends k = false → m' ≤ headY vecs idx k) ∧
        (∀ w, s' = some w → ends w = false ∧ headY vecs idx w = m') ∧
        ((s' = s₀ ∧ m' = m₀) ∨ ∃ w ∈ L, s' = some w) ∧
        (∀ k ∈ L, ends k = false → headY vecs idx k = m' → ∃ w, s' = some w ∧ k ≤ w) := by
  intro L
  induction L with
  | nil =>
    intro m₀ s₀ _ hs₀
    exact ⟨m₀, s₀, rfl, le_rfl, by simp, hs₀, Or.inl ⟨rfl, rfl⟩, by simp⟩
  | cons i rest ih =>
    intro m₀ s₀ hsort hs₀
    have hsort' := List.pairwise_cons.mp hsort
    rw [selLoop]
    by_cases hei : ends i = true
    · rw [if_pos hei]
      obtain ⟨m', s', heq, hm, hks, hws, hcase, htie⟩ := ih m₀ s₀ hsort'.2 hs₀
      refine ⟨m', s', heq, hm, ?_, hws, ?_, ?_⟩
      · intro k hk hkl
        rcases List.mem_cons.mp hk with rfl | hk'
        · rw [hei] at hkl
          exact absurd hkl (by simp)
        · exact hks k hk' hkl
      · rcases hcase with h | ⟨w, hw, hsw⟩
        · exact Or.inl h
        · exact Or.inr ⟨w, List.mem_cons_of_mem i hw, hsw⟩
      · intro k hk hkl hky
        rcases List.mem_cons.mp hk with rfl | hk'
        · rw [hei] at hkl
          exact absurd hkl (by simp)
        · exact htie k hk' hkl hky
    · rw [if_neg hei]
      rw [Bool.not_eq_true] at hei
      have hin : idx i < (vecs i).length := hlive i hei
      have hg := get?_eq_getD hin
      simp only [hg]
      by_cases hle : ((vecs i).getD (idx i) ⟨0, 0⟩).repairYear ≤ m₀
      · rw [if_pos hle]
        obtain ⟨m', s', heq, hm, hks, hws, hcase, htie⟩ :=
          ih ((vecs i).getD (idx i) ⟨0, 0⟩).repairYear (some i) hsort'.2
            (fun w hw => by
              rw [Option.some_inj] at hw
              subst hw
              exact ⟨hei, rfl⟩)
        refine ⟨m', s', heq, le_trans hm hle, ?_, hws, ?_, ?_⟩
        · intro k hk hkl
          rcases List.mem_cons.mp hk with rfl | hk'
          · exact hm
          · exact hks k hk' hkl
        · rcases hcase with ⟨h1, _⟩ | ⟨w, hw, hsw⟩
          · exact Or.inr ⟨i, List.mem_cons_self i rest, h1⟩
          · exact Or.inr ⟨w, List.mem_cons_of_mem i hw, hsw⟩
        · intro k hk hkl hky
          rcases List.mem_cons.mp hk with rfl | hk'
          · rcases hcase with ⟨h1, _⟩ | ⟨w, hw, hsw⟩
            · exact ⟨k, h1, le_rfl⟩
            · exact ⟨w, hsw, le_of_lt (hsort'.1 w hw)⟩
          · exact htie k hk' hkl hky
      · rw [if_neg hle]
        push_neg at hle
        obtain ⟨m', s', heq, hm, hks, hws, hcase, htie⟩ := ih m₀ s₀ hsort'.2 hs₀
        refine ⟨m', s', heq, hm, ?_, hws, ?_, ?_⟩
        · intro k hk hkl
          rcases List.mem_cons.mp hk with rfl | hk'
          · exact le_of_lt (lt_of_le_of_lt hm hle)
          · exact hks k hk' hkl
        · rcases hcase with h | ⟨w, hw, hsw⟩
          · exact Or.inl h
          · exact Or.inr ⟨w, List.mem_cons_of_mem i hw, hsw⟩
        · intro k hk hkl hky
          rcases List.mem_cons.mp hk with rfl | hk'
          · have : m' ≤ m₀ := hm
            exact absurd hky (by rw [headY]; omega)
          · exact htie k hk' hkl hky

/-- Every index is in the scanned list `[0,1,2,3]`. -/
theorem fin4_mem : ∀ i : Fin 4, i ∈ ([0, 1, 2, 3] : List (Fin 4)) := by decide

/-- The main merge loop, on in-range live iterators and sorted suffixes,
completes with a sorted output extending the accumulator. -/
theorem mergeLoop_sorted (vecs : MergeVecs) :
    ∀ (fuel : ℕ) (idx : Fin 4 → ℕ) (ends : Fin 4 → Bool) (acc : List Pair),
      (∀ i, (ends i = false → idx i < (vecs i).length) ∧
        (ends i = true → idx i = (vecs i).length)) →
      (∀ i, List.Pairwise yearLE ((vecs i).drop (idx i))) →
      List.Pairwise yearLE acc →
      (∀ p ∈ acc, ∀ i, ends i = false →
        ∀ q ∈ (vecs i).drop (idx i), p.repairYear ≤ q.repairYear) →
      (∑ i : Fin 4, ((vecs i).length - idx i)) < fuel →
      ∃ out, mergeLoop vecs fuel idx ends acc = some out ∧
        List.Pairwise yearLE out ∧ ∃ t, out = acc ++ t := by
  intro fuel
  induction fuel with
  | zero =>
    intro idx ends acc _ _ _ _ hfuel
    exact absurd hfuel (by omega)
  | succ n ih =>
    intro idx ends acc hrange hsuf hacc hbound hfuel
    rw [mergeLoop]
    by_cases hall : ends 0 = true ∧ ends 1 = true ∧ ends 2 = true ∧ ends 3 = true
    · rw [if_pos hall]
      exact ⟨acc, rfl, hacc, [], by simp⟩
    · rw [if_neg hall]
      have hlive : ∀ i, ends i = false → idx i < (vecs i).length :=
        fun i hi => (hrange i).1 hi
      obtain ⟨m', s', heq, hm, hks, hws, hcase, htie⟩ :=
        selLoop_spec vecs idx ends hlive [0, 1, 2, 3] 9999 none (by decide) (by simp)
      rw [heq]
      cases s' with
      | none => exact ⟨acc, rfl, hacc, [], by simp⟩
      | some w =>
        obtain ⟨hwl, hwy⟩ := hws w rfl
        have hwin : idx w < (vecs w).length := hlive w hwl
        have hg := get?_eq_getD hwin
        simp only [hg]
        have hdrop : (vecs w).drop (idx w) =
            (vecs w).getD (idx w) ⟨0, 0⟩ :: (vecs w).drop (idx w + 1) := by
          rw [List.drop_eq_getElem_cons hwin]
          congr 1
          rw [List.getD_eq_getElem?_getD, List.getElem?_eq_getElem hwin]
          rfl
        have hsufw := hsuf w
        rw [hdrop] at hsufw
        have hsufw' := List.pairwise_cons.mp hsufw
        have hmain := ih (Function.update idx w (idx w + 1))
          (Function.update ends w (decide (idx w + 1 = (vecs w).length)))
          (acc ++ [(vecs w).getD (idx w) ⟨0, 0⟩]) ?_ ?_ ?_ ?_ ?_
        · obtain ⟨out, hout, hsorted, t, ht⟩ := hmain
          refine ⟨out, hout, hsorted, (vecs w).getD (idx w) ⟨0, 0⟩ :: t, ?_⟩
          rw [ht]
          simp
        · intro i
          by_cases hiw : i = w
          · subst hiw
            rw [Function.update_same, Function.update_same]
            constructor
            · intro hfalse
              rw [decide_eq_false_iff_not] at hfalse
              omega
            · intro htrue
              rw [decide_eq_true_eq] at htrue
              exact htrue
          · rw [Function.update_noteq hiw, Function.update_noteq hiw]
            exact hrange i
        · intro i
          by_cases hiw : i = w
          · subst hiw
            rw [Function.update_same]
            exact hsufw'.2
          · rw [Function.update_noteq hiw]
            exact hsuf i
        · rw [List.pairwise_append]
          refine ⟨hacc, by simp, ?_⟩
          intro a ha b hb
          rw [List.mem_singleton] at hb
          subst hb
          exact hbound a ha w hwl _ (by rw [hdrop]; exact List.mem_cons_self _ _)
        · intro p hp i hilive q hq
          rcases List.mem_append.mp hp with hpa | hpp
          · by_cases hiw : i = w
            · subst hiw
              rw [Function.update_same] at hilive hq
              refine hbound p hpa i ?_ q ?_
              · exact hwl
              · rw [hdrop]
                exact List.mem_cons_of_mem _ hq
            · rw [Function.update_noteq hiw] at hilive hq
              exact hbound p hpa i hilive q hq
          · rw [List.mem_singleton] at hpp
            subst hpp
            by_cases hiw : i = w
            · subst hiw
              rw [Function.update_same] at hq
              exact hsufw'.1 q hq
            · rw [Function.update_noteq hiw] at hilive hq
              have hqin : idx i < (vecs i).length := hlive i hilive
              have hdropi : (vecs i).drop (idx i) =
                  (vecs i).getD (idx i) ⟨0, 0⟩ :: (vecs i).drop (idx i + 1) := by
                rw [List.drop_eq_getElem_cons hqin]
                congr 1
                rw [List.getD_eq_getElem?_getD, List.getElem?_eq_getElem hqin]
                rfl
              have hhead : m' ≤ headY vecs idx i := hks i (fin4_mem i) hilive
              rw [hdropi] at hq
              rcases List.mem_cons.mp hq with rfl | hq'
              · show ((vecs w).getD (idx w) ⟨0, 0⟩).repairYear ≤ _
                have : ((vecs w).getD (idx w) ⟨0, 0⟩).repairYear = m' := hwy
                rw [this]
                exact hhead
              · have hsufi := hsuf i
                rw [hdropi] at hsufi
                have := (List.pairwise_cons.mp hsufi).1 q hq'
                show ((vecs w).getD (idx w) ⟨0, 0⟩).repairYear ≤ _
                have hwm : ((vecs w).getD (idx w) ⟨0, 0⟩).repairYear = m' := hwy
                rw [hwm]
                exact le_trans hhead this
        · have hgt : (fun i : Fin 4 => (vecs i).length - Function.update idx w (idx w + 1) i) =
              Function.update (fun i : Fin 4 => (vecs i).length - idx i) w
                ((vecs w).length - (idx w + 1)) := by
            funext i
            by_cases h : i = w
            · subst h
              rw [Function.update_same, Function.update_same]
            · rw [Function.update_noteq h, Function.update_noteq h]
          have hold : ∑ i : Fin 4, ((vecs i).length - idx i) =
              ∑ i in Finset.univ \ {w}, ((vecs i).length - idx i) + ((vecs w).length - idx w) :=
            Finset.sum_eq_sum_diff_singleton_add (Finset.mem_univ w) _
          rw [hgt, Finset.sum_update_of_mem (Finset.mem_univ w)]
          omega

/-- Claim C2, counterexample: four nonempty sorted schedules (entries
tagged by distinct repair ids) where schedules 1 and 2 tie on year 5.
The merged output leads with schedule 2's entry, not schedule 1's: the
`<=` in the selection loop makes the LAST tying schedule win, refuting
the claimed schedule-1-before-schedule-2 tie-break. -/
theorem claim_C2_counterexample :
    mergeFourSched [⟨1, 5⟩] [⟨2, 5⟩] [⟨3, 6⟩] [⟨4, 7⟩] =
      some [⟨2, 5⟩, ⟨1, 5⟩, ⟨3, 6⟩, ⟨4, 7⟩] ∧
    mergeFourSched [⟨1, 5⟩] [⟨2, 5⟩] [⟨3, 6⟩] [⟨4, 7⟩] ≠
      some [⟨1, 5⟩, ⟨2, 5⟩, ⟨3, 6⟩, ⟨4, 7⟩] := by
  decide

/-- Claim C2, amended: for four NONEMPTY schedules each sorted by
ascending repairYear (an empty input makes the source dereference an end
iterator, see C8), the merge completes and returns a single schedule
sorted by ascending repairYear; and at every extraction step the
selection picks, among the live schedules whose head year attains the
running minimum (capped at the 9999 sentinel), the one with the LARGEST
index — so among equal-year entries schedule 4 precedes 3 precedes 2
precedes 1, the reverse of the claimed order. -/
theorem claim_C2 :
    (∀ v1 v2 v3 v4 : List Pair,
      v1 ≠ [] → v2 ≠ [] → v3 ≠ [] → v4 ≠ [] →
      List.Pairwise yearLE v1 → List.Pairwise yearLE v2 →
      List.Pairwise yearLE v3 → List.Pairwise yearLE v4 →
      ∃ out, mergeFourSched v1 v2 v3 v4 = some out ∧ List.Pairwise yearLE out) ∧
    (∀ (vecs : MergeVecs) (idx : Fin 4 → ℕ) (ends : Fin 4 → Bool),
      (∀ i, ends i = false → idx i < (vecs i).length) →
      ∀ (m' : ℤ) (s' : Option (Fin 4)),
        selLoop vecs idx ends [0, 1, 2, 3] (9999, none) = some (m', s') →
        ∀ k, ends k = false → headY vecs idx k = m' →
          ∃ w, s' = some w ∧ k ≤ w) := by
  constructor
  · intro v1 v2 v3 v4 h1 h2 h3 h4 hs1 hs2 hs3 hs4
    have e0 : (![v1, v2, v3, v4] : MergeVecs) 0 = v1 := rfl
    have e1 : (![v1, v2, v3, v4] : MergeVecs) 1 = v2 := rfl
    have e2 : (![v1, v2, v3, v4] : MergeVecs) 2 = v3 := rfl
    have e3 : (![v1, v2, v3, v4] : MergeVecs) 3 = v4 := rfl
    obtain ⟨out, hout, hsorted, _, _⟩ :=
      mergeLoop_sorted (![v1, v2, v3, v4])
        (v1.length + v2.length + v3.length + v4.length + 1)
        (fun _ => 0) (fun _ => false) []
        (by
          intro i
          refine ⟨fun _ => ?_, fun hcon => absurd hcon Bool.false_ne_true⟩
          fin_cases i
          · exact List.length_pos.mpr h1
          · exact List.length_pos.mpr h2
          · exact List.length_pos.mpr h3
          · exact List.length_pos.mpr h4)
        (by
          intro i
          simp only [List.drop_zero]
          fin_cases i
          · exact hs1
          · exact hs2
          · exact hs3
          · exact hs4)
        List.Pairwise.nil
        (by intro p hp; exact absurd hp (List.not_mem_nil p))
        (by
          rw [Fin.sum_univ_four]
          simp only [e0, e1, e2, e3]
          omega)
    exact ⟨out, hout, hsorted⟩
  · intro vecs idx ends hlive m' s' hsel k hkl hky
    obtain ⟨m₁, s₁, heq, _, _, _, _, htie⟩ :=
      selLoop_spec vecs idx ends hlive [0, 1, 2, 3] 9999 none (by decide) (by simp)
    rw [heq, Option.some_inj, Prod.mk.injEq] at hsel
    obtain ⟨hm, hs⟩ := hsel
    subst hm
    subst hs
    exact htie k (fin4_mem k) hkl hky

/-- Witness for C2 on four sorted nonempty singletons. -/
theorem claim_C2_witness :
    ∃ out, mergeFourSched [⟨1, 5⟩] [⟨2, 6⟩] [⟨3, 7⟩] [⟨4, 8⟩] = some out ∧
      List.Pairwise yearLE out :=
  claim_C2.1 [⟨1, 5⟩] [⟨2, 6⟩] [⟨3, 7⟩] [⟨4, 8⟩] (by decide) (by decide) (by decide)
    (by decide) (by simp) (by simp) (by simp) (by simp)
